import Mathlib

/-
Verification of the comment extraction, classification and filtering
pipeline of the bugguide-chat crawler or exporter.

The embedding follows the Python sources:
  bgc/export_comments.py : screen_record, filter_record, export_taxon
  bgc/import_comments.py : parse_comment model, process_list_page
Strings are Lean strings; character lists stand for the character level
regex work; the implicit global args object is threaded explicitly; the
Python exceptions SystemExit and KeyboardInterrupt become an explicit
error type; the page fetch collaborator is a parameter returning none on
a fetch failure.
-/

/-- One comment node as produced by parse_comment in import_comments.py:
keys subj, body, byline, depth. -/
structure Comment where
  subj : String
  body : String
  byline : String
  depth : Nat
deriving DecidableEq

/-- A comment after filter_record added the styling metadata: the subj
field may have been blanked and the derived highlight flag is present. -/
structure SComment where
  subj : String
  body : String
  byline : String
  depth : Nat
  highlight : Bool
deriving DecidableEq

/-- Whitespace characters of the regex class backslash-s (ASCII model). -/
def isPySpace (c : Char) : Bool :=
  c == ' ' || c == '\t' || c == '\n' || c == '\r' || c == '\x0b' || c == '\x0c'

/-- The literal part of the move comment pattern, lowercased. -/
def moveLit : List Char := "moved from ".data

/-- Semantics of the regex fragment dot-plus, literal dot, whitespace-star,
dollar on the characters after the literal: some index i holds the dot, at
least one character precedes it, none of them a newline, and everything
after it is whitespace. -/
def moveTail (l : List Char) : Bool :=
  (List.range l.length).any fun i =>
    decide (1 ≤ i) && ((l.take i).all fun c => !(c == '\n')) &&
      decide (l.get? i = some '.') && (l.drop (i + 1)).all isPySpace

/-- Semantics of re.match with the pattern of filter_record, case
insensitive: the lowercased body starts with "moved from " and the rest
matches the tail fragment. -/
def isMoveComment (body : String) : Bool :=
  let l := body.data.map Char.toLower
  decide (l.take 11 = moveLit) && moveTail (l.drop 11)

/-- The move comment classification as the spec words it: the body is,
case insensitively, the text "Moved from anything." with only trailing
whitespace after the period. Stated as a second definition for comparison
with the one read off the source. -/
def movePatternSpec (body : String) : Prop :=
  ∃ mid trail : List Char,
    body.data.map Char.toLower = moveLit ++ mid ++ '.' :: trail ∧
      mid ≠ [] ∧ (∀ c ∈ mid, c ≠ '\n') ∧ (∀ c ∈ trail, isPySpace c = true)

/-- The styling pass of filter_record on one comment: blank the subject
when the body starts with it, derive the highlight flag from the move
comment pattern. -/
def styleComment (c : Comment) : SComment :=
  { subj := if c.body.data.take c.subj.data.length = c.subj.data then "" else c.subj
    body := c.body
    byline := c.byline
    depth := c.depth
    highlight := !(isMoveComment c.body) }

/-- One record as produced by parse_record in import_comments.py. -/
structure Record where
  url : String
  img : String
  title : String
  metadata : String
  remarks : String
  byline : String
  comments : List Comment
deriving DecidableEq

/-- A record whose comments carry the styling metadata, as filter_record
returns it. -/
structure FRecord where
  url : String
  img : String
  title : String
  metadata : String
  remarks : String
  byline : String
  comments : List SComment
deriving DecidableEq

/-- Replace the comment list of a record, keeping every other field. -/
def setComments (r : Record) (cs : List SComment) : FRecord :=
  { url := r.url, img := r.img, title := r.title, metadata := r.metadata
    remarks := r.remarks, byline := r.byline, comments := cs }

/-- The ignore-moves option: absent, "always" or "nochat". -/
inductive Policy
  | nonePolicy
  | always
  | nochat
deriving DecidableEq

/-- The shared args object, narrowed to the fields the filter pipeline
reads or writes. -/
structure Args where
  ignore_moves : Policy
  screen : Bool
  verbose : Bool
deriving DecidableEq

/-- The four recognized screening inputs. -/
inductive Response
  | yes
  | no
  | auto
  | quit
deriving DecidableEq

/-- What happens at one screening prompt: a recognized response, or a
keyboard interrupt while blocked on input. -/
inductive Stimulus
  | resp (r : Response)
  | interrupt
deriving DecidableEq

/-- The exceptions that can escape the filtering of one record: exit()
raises SystemExit, Ctrl-C raises KeyboardInterrupt. -/
inductive Exn
  | sysExit
  | kbInt
deriving DecidableEq

/-- Decidable equality for Except, so that concrete runs of the pipeline
can be checked by decide. -/
instance {ε α : Type} [DecidableEq ε] [DecidableEq α] : DecidableEq (Except ε α) :=
  fun x y =>
    match x, y with
    | .ok a, .ok b =>
      if h : a = b then isTrue (congrArg Except.ok h)
      else isFalse fun hh => h (Except.ok.inj hh)
    | .error a, .error b =>
      if h : a = b then isTrue (congrArg Except.error h)
      else isFalse fun hh => h (Except.error.inj hh)
    | .ok _, .error _ => isFalse fun hh => Except.noConfusion hh
    | .error _, .ok _ => isFalse fun hh => Except.noConfusion hh

/-- screen_record of export_comments.py: yes returns the record (true),
no returns None (false), auto returns None after clearing the screen and
verbose flags, quit calls exit() which raises SystemExit. -/
def screen_record (args : Args) (stim : Stimulus) : Except Exn (Bool × Args) :=
  match stim with
  | .interrupt => .error .kbInt
  | .resp .yes => .ok (true, args)
  | .resp .no => .ok (false, args)
  | .resp .auto => .ok (false, { args with screen := false, verbose := false })
  | .resp .quit => .error .sysExit

/-- filter_record of export_comments.py: discard a record with no
comments, style every comment, apply the ignore-moves policy, then run the
interactive screen if enabled. The value screen_record returns is
discarded, exactly as in the source; only its args mutation and its
exceptions take effect. -/
def filter_record (args : Args) (stim : Stimulus) (rec : Record) :
    Except Exn (Option FRecord × Args) :=
  if rec.comments.isEmpty then .ok (none, args)
  else
    let styled := rec.comments.map styleComment
    let afterPolicy : Option (List SComment) :=
      match args.ignore_moves with
      | .nonePolicy => some styled
      | pol =>
        let marked := styled.filter fun c => c.highlight
        if marked.isEmpty then none
        else if pol = .always then some marked else some styled
    match afterPolicy with
    | none => .ok (none, args)
    | some kept =>
      let outRec := setComments rec kept
      if args.screen then
        match screen_record args stim with
        | .error e => .error e
        | .ok (_, args2) => .ok (some outRec, args2)
      else .ok (some outRec, args)

/-- One taxonomic section of the snapshot, as process_list_page builds it
and export_taxon reads it back from the JSON snapshot. -/
structure Section where
  title : String
  rank : String
  taxon : String
  own_page : String
  parent_page : String
  records : List Record
deriving DecidableEq

/-- One breadcrumb delimited group on a listing page: its breadcrumb text,
rank, taxon name, the link of its own listing and the record links it
holds, in document order. -/
structure PageGroup where
  title : String
  rank : String
  taxon : String
  own_url : String
  links : List String
deriving DecidableEq

/-- A fresh section seeded from a page group, with the current page as
parent_page and an empty record list. -/
def mkSection (g : PageGroup) (src : String) : Section :=
  { title := g.title, rank := g.rank, taxon := g.taxon
    own_page := g.own_url, parent_page := src, records := [] }

/-- The section continuity decision of process_list_page: start a new
section when the section list is empty or the breadcrumb text differs from
the title of the last section. -/
def accumulate (src : String) (sections : List Section) (g : PageGroup) :
    List Section :=
  match sections.getLast? with
  | none => sections ++ [mkSection g src]
  | some last => if last.title ≠ g.title then sections ++ [mkSection g src] else sections

/-- Append one parsed record to the last section of the list, as the
source does with all_sections[-1]. -/
def appendRecToLast (sections : List Section) (r : Record) : List Section :=
  match sections with
  | [] => []
  | [s] => [{ s with records := s.records ++ [r] }]
  | s :: rest => s :: appendRecToLast rest r

/-- Why the per page loop stopped early: a record page fetch raised, or
the image budget reached zero and exit(0) was called. -/
inductive Abort
  | fetchFail
  | imgDone
deriving DecidableEq

/-- The inner loop of process_list_page over the record links of one
group: fetch each page (a fetch failure propagates immediately, leaving
the remaining links unvisited), append the parsed record to the last
section, decrement the image budget and exit when it reaches zero. -/
def processLinks (fetch : String → Option Record) :
    List String → List Section → Int → (List Section × Int) × Option Abort
  | [], secs, img => ((secs, img), none)
  | u :: us, secs, img =>
    match fetch u with
    | none => ((secs, img), some .fetchFail)
    | some r =>
      let secs2 := appendRecToLast secs r
      let img2 := img - 1
      if img2 = 0 then ((secs2, img2), some .imgDone)
      else processLinks fetch us secs2 img2

/-- process_list_page of import_comments.py: for each group on the page,
run the section continuity decision, then visit the record links of the
group. An abort from the inner loop propagates, keeping the sections
accumulated so far. -/
def process_list_page (fetch : String → Option Record) (src : String) :
    List PageGroup → List Section → Int → (List Section × Int) × Option Abort
  | [], secs, img => ((secs, img), none)
  | g :: gs, secs, img =>
    let secs1 := accumulate src secs g
    match processLinks fetch g.links secs1 img with
    | (st, some a) => (st, some a)
    | ((secs2, img2), none) => process_list_page fetch src gs secs2 img2

/-- A record as it appears in the rendered export: either written raw
from the snapshot, untouched by filtering, or written after filtering. -/
inductive OutRec
  | raw (r : Record)
  | filt (r : FRecord)
deriving DecidableEq

/-- A section as the export template renders it. -/
structure OutSection where
  title : String
  rank : String
  taxon : String
  own_page : String
  parent_page : String
  records : List OutRec
deriving DecidableEq

/-- A section whose record list was replaced by its filtered records. -/
def filtSection (s : Section) (fs : List FRecord) : OutSection :=
  { title := s.title, rank := s.rank, taxon := s.taxon, own_page := s.own_page
    parent_page := s.parent_page, records := fs.map OutRec.filt }

/-- A section written exactly as loaded from the snapshot, its records
never replaced by filtered ones. -/
def rawSection (s : Section) : OutSection :=
  { title := s.title, rank := s.rank, taxon := s.taxon, own_page := s.own_page
    parent_page := s.parent_page, records := s.records.map OutRec.raw }

/-- The inner loop of export_taxon over the records of one section:
collect what filter_record keeps, thread the args object, and stop at the
first exception, returning the records accepted before it. -/
def filterRecords (stim : Nat → Stimulus) :
    Args → Nat → List Record → List FRecord × Args × Option Exn
  | args, _, [] => ([], args, none)
  | args, k, r :: rs =>
    match filter_record args (stim k) r with
    | .error e => ([], args, some e)
    | .ok (res, args2) =>
      match filterRecords stim args2 (k + 1) rs with
      | (fs, args3, e) =>
        (match res with | some f => f :: fs | none => fs, args3, e)

/-- The section loop of export_taxon together with its finally clause:
the first component is what the template renders to the output file. A
SystemExit is caught and truncates to the sections processed so far,
keeping the current section only if it already has accepted records; a
KeyboardInterrupt is not caught by the except clause, so nothing is
truncated and every remaining section is written raw. -/
def export_sections (stim : Nat → Nat → Stimulus) :
    Args → Nat → List Section → List OutSection × Option Exn
  | _, _, [] => ([], none)
  | args, idx, s :: rest =>
    match filterRecords (stim idx) args 0 s.records with
    | (filtered, args2, none) =>
      match export_sections stim args2 (idx + 1) rest with
      | (outs, e) => (filtSection s filtered :: outs, e)
    | (filtered, _, some .sysExit) =>
      (if filtered.isEmpty then [] else [filtSection s filtered], some .sysExit)
    | (_, _, some .kbInt) =>
      (rawSection s :: rest.map rawSection, some .kbInt)

/- Concrete fixtures used by the evaluations and witnesses below. -/

/-- A substantive comment. -/
def chatC : Comment := { subj := "", body := "Nice find!", byline := "u1", depth := 0 }

/-- A pure move comment. -/
def moveC : Comment := { subj := "", body := "Moved from Ants.", byline := "ed", depth := 0 }

/-- A nested substantive comment. -/
def chatC2 : Comment := { subj := "", body := "Me too!", byline := "u2", depth := 1 }

/-- A comment whose body starts with its subject text. -/
def redundC : Comment := { subj := "Hi", body := "Hi there", byline := "u3", depth := 0 }

/-- A record with one substantive comment. -/
def recChat : Record :=
  { url := "n1", img := "i1", title := "t1", metadata := "", remarks := ""
    byline := "b1", comments := [chatC] }

/-- A record whose comments are all move comments. -/
def recMove : Record :=
  { url := "n2", img := "i2", title := "t2", metadata := "", remarks := ""
    byline := "b2", comments := [moveC] }

/-- A record with a move comment interleaved before a substantive one. -/
def recMix : Record :=
  { url := "n3", img := "i3", title := "t3", metadata := "", remarks := ""
    byline := "b3", comments := [moveC, chatC, moveC] }

/-- A record whose single comment has a redundant subject line. -/
def recRedund : Record :=
  { url := "n4", img := "i4", title := "t4", metadata := "", remarks := ""
    byline := "b4", comments := [redundC] }

/-- Args with screening enabled and no ignore-moves policy. -/
def argsScreenNone : Args := { ignore_moves := .nonePolicy, screen := true, verbose := true }

/-- Args with no screening and the given policy. -/
def argsPlain (p : Policy) : Args := { ignore_moves := p, screen := false, verbose := false }

/-- A fetch collaborator that raises on the second record link only. -/
def fetchFail2 : String → Option Record :=
  fun u => if u = "L2" then none else some recChat

/-- A page group with three record links. -/
def grp7 : PageGroup :=
  { title := "T7", rank := "genus", taxon := "Tax7"
    own_url := "own7", links := ["L1", "L2", "L3"] }

/-- A first section with two records, the second of which is the one on
screen when the user quits or interrupts. -/
def secA : Section :=
  { title := "SA", rank := "genus", taxon := "TA"
    own_page := "oa", parent_page := "pa", records := [recChat, recMix] }

/-- A trailing unprocessed section. -/
def secB : Section :=
  { title := "SB", rank := "species", taxon := "TB"
    own_page := "ob", parent_page := "pb", records := [recChat] }

/-- The user accepts the first record and answers quit at the second. -/
def stimQuit : Nat → Nat → Stimulus :=
  fun i j => if i = 0 ∧ j = 1 then .resp .quit else .resp .yes

/-- The user accepts the first record and presses Ctrl-C at the second
prompt. -/
def stimInt : Nat → Nat → Stimulus :=
  fun i j => if i = 0 ∧ j = 1 then .interrupt else .resp .yes

/-- The frame shape: the list is the untouched prefix a, then the section
x extended by appended records only, then appended new sections. -/
def Keeps (a : List Section) (x : Section) (s : List Section) : Prop :=
  ∃ (extra : List Record) (newSecs : List Section),
    s = a ++ [{ x with records := x.records ++ extra }] ++ newSecs

example : isMoveComment "Moved from Ants." = true := by decide
example : isMoveComment "moved FROM Ants.  " = true := by decide
example : isMoveComment "Moved from Ants. Nice find!" = false := by decide
example : isMoveComment "Moved from ." = false := by decide
example : isMoveComment "Nice find!" = false := by decide

/-- C1: with screening enabled, a no response is supposed to make the
filter pipeline discard the record, but filter_record throws away the
value screen_record returns, so while screen_record signals a skip by
returning no record (false here), filter_record still returns the record
and it reaches the export. Evaluation of the code at the failing input. -/
theorem c1_no_response_keeps_record :
    screen_record argsScreenNone (.resp .no) = .ok (false, argsScreenNone) ∧
    filter_record argsScreenNone (.resp .no) recChat
      = .ok (some (setComments recChat [styleComment chatC]), argsScreenNone) := by
  decide

/-- C2 counterexample: a record whose every comment is a move comment is
kept, comments and all, under policy none, against the claim that it is
discarded under every policy. -/
theorem c2_counterexample :
    (∀ c ∈ recMove.comments, (styleComment c).highlight = false) ∧
    filter_record (argsPlain .nonePolicy) (.resp .yes) recMove
      = .ok (some (setComments recMove [styleComment moveC]), argsPlain .nonePolicy) := by
  decide

/-- C2 as amended: a record with a nonempty comment list in which every
comment is a move comment is discarded under policies always and nochat,
but under policy none it is kept with its full comment list. -/
theorem c2_all_moves_discard_requires_policy
    (rec : Record) (stim : Stimulus) (sc vb : Bool)
    (hne : rec.comments ≠ [])
    (hall : ∀ c ∈ rec.comments, (styleComment c).highlight = false) :
    filter_record ⟨.always, sc, vb⟩ stim rec = .ok (none, ⟨.always, sc, vb⟩) ∧
    filter_record ⟨.nochat, sc, vb⟩ stim rec = .ok (none, ⟨.nochat, sc, vb⟩) ∧
    filter_record ⟨.nonePolicy, false, vb⟩ stim rec
      = .ok (some (setComments rec (rec.comments.map styleComment)), ⟨.nonePolicy, false, vb⟩) := by
  have hie : rec.comments.isEmpty = false := List.isEmpty_eq_false.mpr hne
  have hfil : (rec.comments.map styleComment).filter (fun c => c.highlight) = [] := by
    rw [List.filter_eq_nil_iff]
    intro a ha
    obtain ⟨c, hc, rfl⟩ := List.mem_map.mp ha
    simp [hall c hc]
  refine ⟨?_, ?_, ?_⟩
  · simp [filter_record, hie, hfil]
  · simp [filter_record, hie, hfil]
  · simp [filter_record, hie]

/-- C2 witness: the always policy discards the all-moves record. -/
theorem c2_witness :
    filter_record ⟨.always, false, false⟩ (.resp .yes) recMove
      = .ok (none, ⟨.always, false, false⟩) :=
  (c2_all_moves_discard_requires_policy recMove (.resp .yes) false false
    (by decide) (by decide)).1

/-- C3: under policy always with screening disabled, a record with at
least one highlighted comment is kept and its comment list becomes
exactly the highlighted comments, in their original relative order (the
filter of the styled original sequence). -/
theorem c3_always_keeps_exactly_highlighted
    (rec : Record) (vb : Bool) (stim : Stimulus)
    (hsome : ((rec.comments.map styleComment).any fun c => c.highlight) = true) :
    filter_record ⟨.always, false, vb⟩ stim rec
      = .ok (some (setComments rec
            ((rec.comments.map styleComment).filter fun c => c.highlight)),
          ⟨.always, false, vb⟩) := by
  obtain ⟨c, hc, hhl⟩ := List.any_eq_true.mp hsome
  have hne : rec.comments.isEmpty = false := by
    rcases List.mem_map.mp hc with ⟨a, ha, rfl⟩
    exact List.isEmpty_eq_false.mpr (List.ne_nil_of_mem ha)
  have hm : (((rec.comments.map styleComment).filter fun c => c.highlight).isEmpty) = false :=
    List.isEmpty_eq_false.mpr (List.ne_nil_of_mem (List.mem_filter.mpr ⟨hc, hhl⟩))
  simp [filter_record, hne, hm]

/-- C3 witness at a record with interleaved move and substantive
comments. -/
theorem c3_witness :
    filter_record ⟨.always, false, false⟩ (.resp .yes) recMix
      = .ok (some (setComments recMix
            ((recMix.comments.map styleComment).filter fun c => c.highlight)),
          ⟨.always, false, false⟩) :=
  c3_always_keeps_exactly_highlighted recMix false (.resp .yes) (by decide)

/-- C4: under policy nochat with screening disabled, a record with a
nonempty comment list is discarded when no comment is highlighted, and
otherwise kept with its comment list unnarrowed: the full styled original
sequence, same length and order. -/
theorem c4_nochat_all_or_nothing
    (rec : Record) (vb : Bool) (stim : Stimulus)
    (hne : rec.comments ≠ []) :
    (((rec.comments.map styleComment).any fun c => c.highlight) = false →
      filter_record ⟨.nochat, false, vb⟩ stim rec = .ok (none, ⟨.nochat, false, vb⟩)) ∧
    (((rec.comments.map styleComment).any fun c => c.highlight) = true →
      filter_record ⟨.nochat, false, vb⟩ stim rec
        = .ok (some (setComments rec (rec.comments.map styleComment)),
            ⟨.nochat, false, vb⟩)) := by
  have hie : rec.comments.isEmpty = false := List.isEmpty_eq_false.mpr hne
  constructor
  · intro hnone
    have hfil : (rec.comments.map styleComment).filter (fun c => c.highlight) = [] := by
      rw [List.filter_eq_nil_iff]
      exact List.any_eq_false.mp hnone
    simp [filter_record, hie, hfil]
  · intro hsome
    obtain ⟨c, hc, hhl⟩ := List.any_eq_true.mp hsome
    have hm : (((rec.comments.map styleComment).filter fun c => c.highlight).isEmpty) = false :=
      List.isEmpty_eq_false.mpr (List.ne_nil_of_mem (List.mem_filter.mpr ⟨hc, hhl⟩))
    simp [filter_record, hie, hm]

/-- C4 witness at the record with interleaved comments: nochat keeps the
full styled sequence. -/
theorem c4_witness :
    filter_record ⟨.nochat, false, false⟩ (.resp .yes) recMix
      = .ok (some (setComments recMix (recMix.comments.map styleComment)),
          ⟨.nochat, false, false⟩) :=
  (c4_nochat_all_or_nothing recMix false (.resp .yes) (by decide)).2 (by decide)

/-- Helper: the element at the split point of an append is the head of
the cons. -/
theorem getAtSplit (mid trail : List Char) (c : Char) :
    (mid ++ c :: trail).get? mid.length = some c := by
  induction mid with
  | nil => rfl
  | cons a t ih => simpa using ih

/-- The tail matcher holds exactly when the character list splits as a
nonempty newline-free middle, a period, and trailing whitespace. -/
theorem moveTail_iff (l : List Char) :
    moveTail l = true ↔
      ∃ mid trail : List Char, l = mid ++ '.' :: trail ∧ mid ≠ [] ∧
        (∀ c ∈ mid, c ≠ '\n') ∧ (∀ c ∈ trail, isPySpace c = true) := by
  unfold moveTail
  rw [List.any_eq_true]
  constructor
  · rintro ⟨i, hir, hP⟩
    rw [List.mem_range] at hir
    simp only [Bool.and_eq_true, decide_eq_true_eq, List.all_eq_true] at hP
    obtain ⟨⟨⟨h1, hnl⟩, hdot⟩, hsp⟩ := hP
    obtain ⟨hlt, hget⟩ := List.get?_eq_some.mp hdot
    refine ⟨l.take i, l.drop (i + 1), ?_, ?_, ?_, hsp⟩
    · conv_lhs => rw [← List.take_append_drop i l]
      congr 1
      rw [List.drop_eq_getElem_cons hlt]
      rw [show l[i] = '.' from hget]
    · have hlen : (l.take i).length = i := by
        rw [List.length_take]
        omega
      intro hemp
      rw [hemp] at hlen
      simp at hlen
      omega
    · intro c hc
      have := hnl c hc
      simpa using this
  · rintro ⟨mid, trail, rfl, hne, hnl, hsp⟩
    refine ⟨mid.length, ?_, ?_⟩
    · rw [List.mem_range, List.length_append, List.length_cons]
      omega
    · simp only [Bool.and_eq_true, decide_eq_true_eq, List.all_eq_true]
      refine ⟨⟨⟨?_, ?_⟩, ?_⟩, ?_⟩
      · cases mid with
        | nil => exact absurd rfl hne
        | cons a t => simp
      · intro c hc
        rw [List.take_left] at hc
        simpa using hnl c hc
      · exact getAtSplit mid trail '.'
      · intro c hc
        have hdrop : (mid ++ '.' :: trail).drop (mid.length + 1) = trail := by
          rw [show mid ++ '.' :: trail = (mid ++ ['.']) ++ trail by simp]
          rw [List.drop_left']
          simp
        rw [hdrop] at hc
        exact hsp c hc

/-- The matcher read off the source equals the spec wording of the move
comment pattern. -/
theorem isMoveComment_iff (body : String) :
    isMoveComment body = true ↔ movePatternSpec body := by
  unfold isMoveComment movePatternSpec
  simp only [Bool.and_eq_true, decide_eq_true_eq, moveTail_iff]
  constructor
  · rintro ⟨htake, mid, trail, hdec, hne, hnl, hsp⟩
    refine ⟨mid, trail, ?_, hne, hnl, hsp⟩
    conv_lhs => rw [← List.take_append_drop 11 (body.data.map Char.toLower)]
    rw [htake, hdec, List.append_assoc]
  · rintro ⟨mid, trail, heq, hne, hnl, hsp⟩
    have hlen : moveLit.length = 11 := by decide
    constructor
    · rw [heq, List.append_assoc, List.take_left' hlen]
    · refine ⟨mid, trail, ?_, hne, hnl, hsp⟩
      rw [heq, List.append_assoc, List.drop_left' hlen]

/-- C5: a comment is classified unhighlighted exactly when its body
matches the case-insensitive pattern of a move comment: the text "Moved
from anything." followed only by trailing whitespace; every other body
gives highlight = true. -/
theorem c5_highlight_iff_move_pattern (c : Comment) :
    ((styleComment c).highlight = false) ↔ movePatternSpec c.body := by
  have h : (styleComment c).highlight = !(isMoveComment c.body) := rfl
  rw [h, Bool.not_eq_false']
  exact isMoveComment_iff c.body

/-- A successful filter_record keeps either the full styled comment list
or its highlighted sublist; case analysis over every branch of the
function. -/
theorem filter_record_ok_comments
    (args : Args) (stim : Stimulus) (rec : Record) (out : FRecord) (args2 : Args)
    (h : filter_record args stim rec = .ok (some out, args2)) :
    out = setComments rec (rec.comments.map styleComment) ∨
    out = setComments rec ((rec.comments.map styleComment).filter fun c => c.highlight) := by
  unfold filter_record at h
  split at h
  · simp at h
  · simp only [] at h
    split at h
    · simp at h
    · rename_i kept hkept
      split at h
      · split at h
        · simp at h
        · simp only [Except.ok.injEq, Prod.mk.injEq, Option.some.injEq] at h
          obtain ⟨rfl, rfl⟩ := h
          revert hkept
          split
          · intro hk
            cases hk
            exact Or.inl rfl
          · split
            · intro hk
              cases hk
            · split
              · intro hk
                cases hk
                exact Or.inr rfl
              · intro hk
                cases hk
                exact Or.inl rfl
      · simp only [Except.ok.injEq, Prod.mk.injEq, Option.some.injEq] at h
        obtain ⟨rfl, rfl⟩ := h
        revert hkept
        split
        · intro hk
          cases hk
          exact Or.inl rfl
        · split
          · intro hk
            cases hk
          · split
            · intro hk
              cases hk
              exact Or.inr rfl
            · intro hk
              cases hk
              exact Or.inl rfl

/-- C9 counterexample: filtering changes the subject field of a comment
whose body starts with its subject text: the comment survives policy none
with its subject blanked, no longer the parsed value "Hi". -/
theorem c9_counterexample :
    filter_record (argsPlain .nonePolicy) (.resp .yes) recRedund
      = .ok (some (setComments recRedund
          [{ subj := "", body := "Hi there", byline := "u3", depth := 0, highlight := true }]),
        argsPlain .nonePolicy) ∧
    redundC.subj = "Hi" := by
  decide

/-- C9 as amended: filtering may drop comments (the surviving list is a
sublist of the styled originals, never reordered) and never changes body,
byline or depth; the subject is the one field it may change, blanked when
the body starts with it. -/
theorem c9_fields_immutable_except_subject
    (args : Args) (stim : Stimulus) (rec : Record) (out : FRecord) (args2 : Args)
    (h : filter_record args stim rec = .ok (some out, args2)) :
    out.comments.Sublist (rec.comments.map styleComment) ∧
    ∀ c : Comment, (styleComment c).body = c.body ∧ (styleComment c).byline = c.byline ∧
      (styleComment c).depth = c.depth ∧
      ((styleComment c).subj = c.subj ∨ (styleComment c).subj = "") := by
  constructor
  · rcases filter_record_ok_comments args stim rec out args2 h with rfl | rfl
    · exact List.Sublist.refl _
    · exact List.filter_sublist _
  · intro c
    refine ⟨rfl, rfl, rfl, ?_⟩
    unfold styleComment
    dsimp only
    split
    · exact Or.inr rfl
    · exact Or.inl rfl

/-- C9 witness: the amended statement applied to the record with the
redundant subject line under policy none. -/
theorem c9_witness :
    (setComments recRedund
        [{ subj := "", body := "Hi there", byline := "u3", depth := 0, highlight := true }]
      ).comments.Sublist (recRedund.comments.map styleComment) ∧
    ∀ c : Comment, (styleComment c).body = c.body ∧ (styleComment c).byline = c.byline ∧
      (styleComment c).depth = c.depth ∧
      ((styleComment c).subj = c.subj ∨ (styleComment c).subj = "") :=
  c9_fields_immutable_except_subject (argsPlain .nonePolicy) (.resp .yes) recRedund
    (setComments recRedund
      [{ subj := "", body := "Hi there", byline := "u3", depth := 0, highlight := true }])
    (argsPlain .nonePolicy) (by decide)

/-- C6: the accumulator starts a new section exactly when the section
list is empty or the incoming breadcrumb title differs from the last
section title, so the title sequence A, A, B, A yields exactly the three
sections A, B, A: consecutive equal titles merge, and a title seen again
after an intervening different one starts a new section. -/
theorem c6_section_continuity
    (A B : String) (hAB : A ≠ B) (fetch : String → Option Record)
    (src : String) (img : Int) :
    ((process_list_page fetch src
        [⟨A, "r1", "t1", "u1", []⟩, ⟨A, "r2", "t2", "u2", []⟩,
         ⟨B, "r3", "t3", "u3", []⟩, ⟨A, "r4", "t4", "u4", []⟩] [] img).1.1.map Section.title
      = [A, B, A]) ∧
    ∀ (secs : List Section) (g : PageGroup),
      (accumulate src secs g).length = secs.length + 1 ↔
        (secs = [] ∨ secs.getLast?.map Section.title ≠ some g.title) := by
  constructor
  · simp [process_list_page, processLinks, accumulate, mkSection, hAB, Ne.symm hAB]
  · intro secs g
    cases hlast : secs.getLast? with
    | none =>
      have hnil : secs = [] := List.getLast?_eq_none_iff.mp hlast
      subst hnil
      simp [accumulate]
    | some last =>
      have hne : secs ≠ [] := by
        intro hh
        subst hh
        simp at hlast
      simp only [accumulate, hlast]
      by_cases ht : last.title = g.title
      · rw [if_neg (by simp [ht])]
        simp [hne, ht]
      · rw [if_pos ht]
        simp [hne, ht, List.length_append]

/-- C6 witness at concrete titles A and B. -/
theorem c6_witness :
    ((process_list_page (fun _ => none) "s"
        [⟨"A", "r1", "t1", "u1", []⟩, ⟨"A", "r2", "t2", "u2", []⟩,
         ⟨"B", "r3", "t3", "u3", []⟩, ⟨"A", "r4", "t4", "u4", []⟩] [] (-1)).1.1.map Section.title
      = ["A", "B", "A"]) ∧
    ∀ (secs : List Section) (g : PageGroup),
      (accumulate "s" secs g).length = secs.length + 1 ↔
        (secs = [] ∨ secs.getLast?.map Section.title ≠ some g.title) :=
  c6_section_continuity "A" "B" (by decide) (fun _ => none) "s" (-1)

/-- C7: a fetch failure on one record page aborts the whole page loop
instead of being skipped: the failure on the second of three links stops
processing with only the first record stored, although fetching the third
link would have succeeded. Evaluation of the code at the failing input. -/
theorem c7_fetch_failure_aborts_traversal :
    process_list_page fetchFail2 "src7" [grp7] [] (-1)
      = (([{ title := "T7", rank := "genus", taxon := "Tax7", own_page := "own7",
             parent_page := "src7", records := [recChat] }], -2), some .fetchFail) ∧
    fetchFail2 "L3" = some recChat := by
  decide

/-- C8: quitting during screening truncates the output to the records
accepted so far and drops the trailing section, but a keyboard interrupt
at the same point is not caught by the except clause of export_taxon, so
the written output keeps every section with its original unfiltered
records. Evaluation of the code at both inputs. -/
theorem c8_quit_truncates_but_interrupt_does_not :
    export_sections stimQuit argsScreenNone 0 [secA, secB]
      = ([filtSection secA [setComments recChat [styleComment chatC]]], some .sysExit) ∧
    export_sections stimInt argsScreenNone 0 [secA, secB]
      = ([rawSection secA, rawSection secB], some .kbInt) := by
  decide

/-- The input list itself has the frame shape. -/
theorem keeps_init (a : List Section) (x : Section) : Keeps a x (a ++ [x]) :=
  ⟨[], [], by simp⟩

/-- Appending a new section keeps the frame shape. -/
theorem keeps_appendNew {a : List Section} {x : Section} {s : List Section}
    (h : Keeps a x s) (n : Section) : Keeps a x (s ++ [n]) := by
  obtain ⟨e, ns, rfl⟩ := h
  exact ⟨e, ns ++ [n], by simp⟩

/-- appendRecToLast on a list with an exposed last element rewrites to an
append on that element. -/
theorem appendRecToLast_concat (l : List Section) (z : Section) (r : Record) :
    appendRecToLast (l ++ [z]) r = l ++ [{ z with records := z.records ++ [r] }] := by
  induction l with
  | nil => rfl
  | cons b t ih =>
    cases hh : t ++ [z] with
    | nil => exact absurd hh (by simp)
    | cons y ys =>
      rw [List.cons_append, hh]
      rw [show appendRecToLast (b :: y :: ys) r = b :: appendRecToLast (y :: ys) r from rfl]
      rw [← hh, ih]
      simp

/-- Appending a record to the last section keeps the frame shape. -/
theorem keeps_appendRec {a : List Section} {x : Section} {s : List Section}
    (h : Keeps a x s) (r : Record) : Keeps a x (appendRecToLast s r) := by
  obtain ⟨e, ns, rfl⟩ := h
  rcases List.eq_nil_or_concat ns with rfl | ⟨ns2, z, hns⟩
  · rw [List.append_nil, appendRecToLast_concat]
    exact ⟨e ++ [r], [], by simp⟩
  · rw [List.concat_eq_append] at hns
    subst hns
    rw [show a ++ [{ x with records := x.records ++ e }] ++ (ns2 ++ [z])
          = (a ++ [{ x with records := x.records ++ e }] ++ ns2) ++ [z] by simp]
    rw [appendRecToLast_concat]
    exact ⟨e, ns2 ++ [{ z with records := z.records ++ [r] }], by simp⟩

/-- The section continuity step keeps the frame shape. -/
theorem keeps_accumulate {a : List Section} {x : Section} {s : List Section}
    (h : Keeps a x s) (src : String) (g : PageGroup) :
    Keeps a x (accumulate src s g) := by
  unfold accumulate
  cases hl : s.getLast? with
  | none =>
    simp only [hl]
    exact keeps_appendNew h _
  | some last =>
    simp only [hl]
    split
    · exact keeps_appendNew h _
    · exact h

/-- The link loop keeps the frame shape, whether or not it aborts. -/
theorem keeps_processLinks {a : List Section} {x : Section}
    (fetch : String → Option Record) (links : List String) :
    ∀ (s : List Section) (img : Int), Keeps a x s →
      Keeps a x ((processLinks fetch links s img).1.1) := by
  induction links with
  | nil =>
    intro s img h
    exact h
  | cons u us ih =>
    intro s img h
    unfold processLinks
    cases hf : fetch u with
    | none =>
      simp only [hf]
      exact h
    | some r =>
      simp only [hf]
      split
      · exact keeps_appendRec h r
      · exact ih _ _ (keeps_appendRec h r)

/-- The page loop keeps the frame shape. -/
theorem keeps_process_list_page {a : List Section} {x : Section}
    (fetch : String → Option Record) (src : String) (gs : List PageGroup) :
    ∀ (s : List Section) (img : Int), Keeps a x s →
      Keeps a x ((process_list_page fetch src gs s img).1.1) := by
  induction gs with
  | nil =>
    intro s img h
    exact h
  | cons g gs ih =>
    intro s img h
    have hK : Keeps a x ((processLinks fetch g.links (accumulate src s g) img).1.1) :=
      keeps_processLinks fetch g.links (accumulate src s g) img (keeps_accumulate h src g)
    unfold process_list_page
    cases hp : processLinks fetch g.links (accumulate src s g) img with
    | mk st ab =>
      rw [hp] at hK
      cases st with
      | mk secs2 img2 =>
        cases ab with
        | none =>
          simp only [hp]
          exact ih secs2 img2 hK
        | some aa =>
          simp only [hp]
          exact hK

/-- C10: process_list_page touches the section list only at its end: for
any input list with last section x and any groups, every earlier section
is returned unchanged, x gains only appended records, and everything else
is appended new sections. -/
theorem c10_process_list_page_frame
    (fetch : String → Option Record) (src : String) (gs : List PageGroup)
    (a : List Section) (x : Section) (img : Int) :
    ∃ (extra : List Record) (newSecs : List Section),
      (process_list_page fetch src gs (a ++ [x]) img).1.1
        = a ++ [{ x with records := x.records ++ extra }] ++ newSecs :=
  keeps_process_list_page fetch src gs (a ++ [x]) img (keeps_init a x)
